import Mathlib

/-!
Verification of the lexer and parser front end of the
SelfPartioningTranspilerV5 repository.

The lexer (src/lexer/lexer.py together with src/lexer/tokenizer_rules.py)
and the parser (src/parser/parser.py together with src/parser/ast_nodes.py)
are embedded shallowly below.

Modelling conventions
- Source text is a Lean String; the cursor of the Python Lexer is modelled
  by keeping the not-yet-consumed character list together with the line and
  column counters in a LexState.  Python slices code[start:pos] are obtained
  by accumulating the consumed characters.
- Python character class methods (isalpha, isdigit, isalnum) are modelled by
  the corresponding ASCII predicates on Char; the claims only exercise ASCII
  input.
- The Python int value of a NUMBER token is modelled by Nat (the scanned
  text is a digit run, hence non-negative); a float value is kept as its
  literal text, since no claim depends on float arithmetic.
- Python exceptions of the parser are modelled by Except: the SyntaxError
  raised by Parser.expect becomes PErr.expected carrying the expected type
  and the offending token (with its position), and the AttributeError that
  Python raises when .value or .type is read from None (peek past the end
  of the token list) becomes PErr.attrNone.
- The lexer main loop and the recursive-descent parser always consume at
  least one character respectively token before iterating, so both are
  given as fuel-indexed functions; running out of fuel is a distinguished
  failure (none respectively PErr.fuel) that is proved unreachable for the
  canonical fuel values used by tokenize and parseAll.
-/

/-- Payload of a token: Python object values restricted to the shapes the
lexer actually produces (text, non-negative int, float literal text, None). -/
inductive TokValue where
  | vstr (s : String)
  | vint (n : Nat)
  | vfloat (txt : String)
  | vnone
deriving DecidableEq, Repr

/-- Token dataclass from src/lexer/lexer.py. -/
structure Token where
  type : String
  value : TokValue
  line : Nat
  col : Nat
deriving DecidableEq, Repr

/-- KEYWORDS from src/lexer/tokenizer_rules.py. -/
def KEYWORDS : List String :=
  ["def", "return", "if", "elif", "else", "for", "while",
   "import", "from", "as", "class", "with", "try", "except",
   "finally", "raise", "yield", "lambda", "pass", "break", "continue",
   "async", "await", "global", "nonlocal"]

/-- OPERATORS from src/lexer/tokenizer_rules.py. -/
def OPERATORS : List String :=
  ["+", "-", "*", "/", "%", "//", "**",
   "=", "==", "!=", "<", ">", "<=", ">=", "+=", "-=", "*=", "/=",
   "and", "or", "not", "|", "&", "^", "~", "<<", ">>"]

/-- DELIMITERS from src/lexer/tokenizer_rules.py (braces written with
hexadecimal escapes). -/
def DELIMITERS : List Char :=
  ['(', ')', '[', ']', '\x7b', '\x7d', ',', ':', '.', ';']

/-- State of the Lexer object: the not-yet-consumed characters plus the
line (starts at 1) and column (starts at 0) counters. -/
structure LexState where
  rem : List Char
  line : Nat
  col : Nat
deriving DecidableEq, Repr

/-- Core of Lexer._advance for one character: a newline increments the line
and resets the column to 0, any other character increments the column. -/
def stepLC (ch : Char) (line col : Nat) : Nat × Nat :=
  if ch = '\n' then (line + 1, 0) else (line, col + 1)

/-- Lexer._advance() for a single character. -/
def adv1 (st : LexState) : LexState :=
  match st.rem with
  | [] => st
  | ch :: rest =>
    let (l, c) := stepLC ch st.line st.col
    ⟨rest, l, c⟩

/-- Lexer._advance(n). -/
def advN : Nat → LexState → LexState
  | 0, st => st
  | n + 1, st => advN n (adv1 st)

/-- Python str.isalnum or underscore test used by the identifier scan
(ASCII fragment). -/
def isIdentChar (c : Char) : Bool :=
  c.isAlphanum || c = '_'

/-- Comment loop of Lexer._skip_whitespace_and_comments: consume characters
up to (not including) the next newline or end of input, incrementing the
column per consumed character.  Returns the remaining characters and the
new column. -/
def dropCommentAux : List Char → Nat → List Char × Nat
  | [], col => ([], col)
  | ch :: rest, col =>
    if ch = '\n' then (ch :: rest, col) else dropCommentAux rest (col + 1)

/-- Lexer._skip_whitespace_and_comments, fuelled by the number of remaining
characters (each loop iteration consumes at least one character, so the
fuel used by skipWs below never runs out). -/
def skipWsAux : Nat → LexState → LexState
  | 0, st => st
  | k + 1, st =>
    match st.rem with
    | [] => st
    | ch :: rest =>
      if ch = ' ' ∨ ch = '\t' ∨ ch = '\r' then skipWsAux k ⟨rest, st.line, st.col + 1⟩
      else if ch = '\n' then st
      else if ch = '#' then
        -- the comment loop first consumes the hash character itself
        skipWsAux k ⟨(dropCommentAux rest (st.col + 1)).1, st.line,
                     (dropCommentAux rest (st.col + 1)).2⟩
      else st

/-- Lexer._skip_whitespace_and_comments. -/
def skipWs (st : LexState) : LexState :=
  skipWsAux st.rem.length st

/-- Lexer._read_identifier_or_keyword: consume the maximal run of
alphanumeric or underscore characters and classify it against KEYWORDS,
then OPERATORS, else IDENT.  As in the source, the token records the line
counter after consumption and the column at the start. -/
def readIdentifierOrKeyword (st : LexState) : Token × LexState :=
  let txt := st.rem.takeWhile isIdentChar
  let st' := advN txt.length st
  let t := if txt.asString ∈ KEYWORDS then "KEYWORD"
           else if txt.asString ∈ OPERATORS then "OP"
           else "IDENT"
  (⟨t, .vstr txt.asString, st'.line, st.col⟩, st')

/-- Number loop of Lexer._read_number: consume digits plus at most one
decimal point; returns the consumed prefix. -/
def numChars : List Char → Bool → List Char
  | [], _ => []
  | c :: rest, hasDot =>
    if c = '.' ∧ hasDot = false then c :: numChars rest true
    else if c.isDigit then c :: numChars rest hasDot
    else []

/-- Value of a digit run, as Python int(txt). -/
def natOfDigits (cs : List Char) : Nat :=
  cs.foldl (fun n c => 10 * n + (c.toNat - 48)) 0

/-- Lexer._read_number. -/
def readNumber (st : LexState) : Token × LexState :=
  let ds := numChars st.rem false
  let st' := advN ds.length st
  let val := if ds.contains '.' then TokValue.vfloat ds.asString
             else TokValue.vint (natOfDigits ds)
  (⟨"NUMBER", val, st'.line, st.col⟩, st')

/-- esc_map lookup of Lexer._read_string, with the pass-through default for
characters outside the map. -/
def escMap (c : Char) : Char :=
  if c = 'n' then '\n'
  else if c = 't' then '\t'
  else if c = 'r' then '\r'
  else if c = '\'' then '\''
  else if c = '"' then '"'
  else if c = '\\' then '\\'
  else c

/-- Main loop of Lexer._read_string, after the opening quote has been
consumed: cs are the remaining characters, buf the accumulated content in
reverse.  Returns the content, the remaining characters and the final line
and column.  A backslash consumes the following character through escMap; a
trailing backslash at end of input is dropped; the loop stops at the
closing quote or at end of input. -/
def readStrAux (quote : Char) : List Char → Nat → Nat → List Char →
    List Char × List Char × Nat × Nat
  | [], l, c, buf => (buf.reverse, [], l, c)
  | ch :: rest, l, c, buf =>
    if ch = '\\' then
      match rest with
      | [] => (buf.reverse, [], (stepLC ch l c).1, (stepLC ch l c).2)
      | nxt :: rest2 =>
        readStrAux quote rest2
          (stepLC nxt (stepLC ch l c).1 (stepLC ch l c).2).1
          (stepLC nxt (stepLC ch l c).1 (stepLC ch l c).2).2
          (escMap nxt :: buf)
    else if ch = quote then (buf.reverse, rest, (stepLC ch l c).1, (stepLC ch l c).2)
    else readStrAux quote rest (stepLC ch l c).1 (stepLC ch l c).2 (ch :: buf)

/-- Lexer._read_string.  The token records the column of the opening quote
and the line counter after the whole literal has been consumed. -/
def readString (st : LexState) : Token × LexState :=
  match st.rem with
  | [] => (⟨"STRING", .vstr "", st.line, st.col⟩, st)
  | q :: rest =>
    let r := readStrAux q rest (stepLC q st.line st.col).1 (stepLC q st.line st.col).2 []
    (⟨"STRING", .vstr r.1.asString, r.2.2.1, st.col⟩, ⟨r.2.1, r.2.2.1, r.2.2.2⟩)

/-- OP token construction inside Lexer._try_multi_char_operator: the column
at the start, the line after advancing. -/
def opTok (s : String) (n : Nat) (st : LexState) : Token × LexState :=
  (⟨"OP", .vstr s, (advN n st).line, st.col⟩, advN n st)

/-- Lexer._try_multi_char_operator: try the 3- then 2-character window
(shorter when fewer characters remain, exactly like the Python join over
peeks), then a single-character operator. -/
def tryMultiCharOperator (st : LexState) : Option (Token × LexState) :=
  let s3 := (st.rem.take 3).asString
  if s3 ∈ OPERATORS then some (opTok s3 3 st)
  else
    let s2 := (st.rem.take 2).asString
    if s2 ∈ OPERATORS then some (opTok s2 2 st)
    else
      match st.rem with
      | [] => none
      | c :: _ =>
        if String.mk [c] ∈ OPERATORS then some (opTok (String.mk [c]) 1 st)
        else none

/-- One iteration of the main loop of Lexer.tokenize after whitespace and
comments have been skipped: none when the input is exhausted (the loop
breaks and the EOF token is emitted), otherwise the next token and the new
state.  The branch order matches the source: newline, identifier, number,
string, delimiter, operator, unknown. -/
def nextTokenCore (st : LexState) : Option (Token × LexState) :=
  match st.rem with
  | [] => none
  | c :: _ =>
    if c = '\n' then some (⟨"NEWLINE", .vstr "\\n", st.line, st.col⟩, adv1 st)
    else if c.isAlpha ∨ c = '_' then some (readIdentifierOrKeyword st)
    else if c.isDigit then some (readNumber st)
    else if c = '\'' ∨ c = '"' then some (readString st)
    else if c ∈ DELIMITERS then
      some (⟨"DELIM", .vstr (String.mk [c]), st.line, st.col⟩, adv1 st)
    else
      match tryMultiCharOperator st with
      | some r => some r
      | none => some (⟨"UNKNOWN", .vstr (String.mk [c]), st.line, st.col⟩, adv1 st)

/-- Main loop of Lexer.tokenize, fuelled: every iteration either emits the
final EOF token or consumes at least one character, so the fuel used by
tokenize never runs out (tokenizeTotal below). -/
def tokenizeAux : Nat → LexState → Option (List Token)
  | 0, _ => none
  | fuel + 1, st =>
    if st.rem.isEmpty then some [⟨"EOF", .vnone, st.line, st.col⟩]
    else
      let st1 := skipWs st
      match nextTokenCore st1 with
      | none => some [⟨"EOF", .vnone, st1.line, st1.col⟩]
      | some (t, st2) => (tokenizeAux fuel st2).map (fun ts => t :: ts)

/-- Lexer(code).tokenize(): line starts at 1, column at 0. -/
def tokenize (s : String) : Option (List Token) :=
  tokenizeAux (s.length + 1) ⟨s.data, 1, 0⟩

/-!  Parser embedding (src/parser/parser.py and src/parser/ast_nodes.py). -/

/-- Expressions as produced by Parser.parse_expression: the Python value of
a literal, identifier or fallback token, or a Call node. -/
inductive PExpr where
  | val (v : TokValue)
  | call (func : TokValue) (args : List PExpr)
deriving Repr

/-- Statement nodes from src/parser/ast_nodes.py. -/
inductive Stmt where
  | functionDef (name : TokValue) (args : List TokValue) (body : List Stmt)
  | assign (target : TokValue) (value : PExpr)
  | ret (value : PExpr)
  | expression (value : PExpr)
  | ifStmt (condition : PExpr) (body : List Stmt) (orelse : List Stmt)
  | forStmt (var : TokValue) (iter : PExpr) (body : List Stmt)
  | whileStmt (condition : PExpr) (body : List Stmt)
deriving Repr

/-- Program root node. -/
structure Program where
  body : List Stmt
deriving Repr

/-- Failure modes of the parser: PErr.expected is the SyntaxError raised by
Parser.expect (carrying the expected type and the actual token, which holds
its own position, or none past the end of the stream); PErr.attrNone is the
AttributeError Python raises when a field of None is read after peeking
past the end of the token list; PErr.fuel marks fuel exhaustion of the
embedding and is unreachable for the fuel used by parseAll on the inputs
considered. -/
inductive PErr where
  | expected (type_ : String) (got : Option Token)
  | attrNone
  | fuel
deriving DecidableEq, Repr

/-- True exactly for the structural-error signal raised by Parser.expect. -/
def PErr.isExpectedErr : PErr → Bool
  | .expected _ _ => true
  | _ => false

/-- Parser.expect: succeed only when the current token exists and has the
requested type, otherwise raise the structural error. -/
def expectT (type_ : String) (tokens : List Token) (pos : Nat) :
    Except PErr (Token × Nat) :=
  match tokens[pos]? with
  | some tok =>
    if tok.type = type_ then .ok (tok, pos + 1)
    else .error (.expected type_ (some tok))
  | none => .error (.expected type_ none)

/-- The while self.match("NEWLINE") loop: skip consecutive NEWLINE tokens.
Fuelled by the number of remaining tokens, which the loop cannot exceed. -/
def skipNewlinesAux : Nat → List Token → Nat → Nat
  | 0, _, pos => pos
  | k + 1, tokens, pos =>
    match tokens[pos]? with
    | some t => if t.type = "NEWLINE" then skipNewlinesAux k tokens (pos + 1) else pos
    | none => pos

/-- Skip consecutive NEWLINE tokens starting at pos. -/
def skipNewlines (tokens : List Token) (pos : Nat) : Nat :=
  skipNewlinesAux (tokens.length - pos) tokens pos

mutual

/-- Parser.parse_statement: dispatch on the keyword value of the current
token, falling through to assignment-or-expression.  Reading tok.type from
a None peek is the AttributeError case. -/
def parseStatement : Nat → List Token → Nat → Except PErr (Stmt × Nat)
  | 0, _, _ => .error .fuel
  | fuel + 1, tokens, pos =>
    match tokens[pos]? with
    | none => .error .attrNone
    | some tok =>
      if tok.type = "KEYWORD" ∧ tok.value = .vstr "def" then parseFunction fuel tokens pos
      else if tok.type = "KEYWORD" ∧ tok.value = .vstr "return" then parseReturn fuel tokens pos
      else if tok.type = "KEYWORD" ∧ tok.value = .vstr "if" then parseIf fuel tokens pos
      else if tok.type = "KEYWORD" ∧ tok.value = .vstr "for" then parseFor fuel tokens pos
      else if tok.type = "KEYWORD" ∧ tok.value = .vstr "while" then parseWhile fuel tokens pos
      else parseAssignOrExpr fuel tokens pos

/-- Parameter loop of Parser.parse_function.  Each iteration reads tok once:
break on value ")", consume an IDENT and append its value, then test the
*same* tok (not the new current token) for value "," — consume one token and
continue when it matches, else break.  Reading .value from a None peek is
the AttributeError case. -/
def parseParams : Nat → List Token → Nat → Except PErr (List TokValue × Nat)
  | 0, _, _ => .error .fuel
  | fuel + 1, tokens, pos =>
    match tokens[pos]? with
    | none => .error .attrNone
    | some tok =>
      if tok.value = .vstr ")" then .ok ([], pos)
      else
        let (acc1, p1) := if tok.type = "IDENT" then ([tok.value], pos + 1) else ([], pos)
        if tok.value = .vstr "," then
          match parseParams fuel tokens (p1 + 1) with
          | .ok (rest, p2) => .ok (acc1 ++ rest, p2)
          | .error e => .error e
        else .ok (acc1, p1)

/-- Parser.parse_function. -/
def parseFunction : Nat → List Token → Nat → Except PErr (Stmt × Nat)
  | 0, _, _ => .error .fuel
  | fuel + 1, tokens, pos =>
    match expectT "KEYWORD" tokens pos with
    | .error e => .error e
    | .ok (_, p1) =>
      match expectT "IDENT" tokens p1 with
      | .error e => .error e
      | .ok (nameTok, p2) =>
        match expectT "DELIM" tokens p2 with
        | .error e => .error e
        | .ok (_, p3) =>
          match parseParams fuel tokens p3 with
          | .error e => .error e
          | .ok (args, p4) =>
            match expectT "DELIM" tokens p4 with
            | .error e => .error e
            | .ok (_, p5) =>
              match expectT "DELIM" tokens p5 with
              | .error e => .error e
              | .ok (_, p6) =>
                match parseBlock fuel tokens (skipNewlines tokens p6) with
                | .error e => .error e
                | .ok (body, p7) => .ok (.functionDef nameTok.value args body, p7)

/-- Parser.parse_return. -/
def parseReturn : Nat → List Token → Nat → Except PErr (Stmt × Nat)
  | 0, _, _ => .error .fuel
  | fuel + 1, tokens, pos =>
    match expectT "KEYWORD" tokens pos with
    | .error e => .error e
    | .ok (_, p1) =>
      match parseExpression fuel tokens p1 with
      | .error e => .error e
      | .ok (e, p2) => .ok (.ret e, p2)

/-- Parser.parse_if: keyword, condition, DELIM, newlines, block; then the
orelse branch is taken only when the current token is the else keyword. -/
def parseIf : Nat → List Token → Nat → Except PErr (Stmt × Nat)
  | 0, _, _ => .error .fuel
  | fuel + 1, tokens, pos =>
    match expectT "KEYWORD" tokens pos with
    | .error e => .error e
    | .ok (_, p1) =>
      match parseExpression fuel tokens p1 with
      | .error e => .error e
      | .ok (cond, p2) =>
        match expectT "DELIM" tokens p2 with
        | .error e => .error e
        | .ok (_, p3) =>
          match parseBlock fuel tokens (skipNewlines tokens p3) with
          | .error e => .error e
          | .ok (body, p5) =>
            match tokens[p5]? with
            | some t =>
              if t.type = "KEYWORD" ∧ t.value = .vstr "else" then
                match expectT "DELIM" tokens (p5 + 1) with
                | .error e => .error e
                | .ok (_, p7) =>
                  match parseBlock fuel tokens (skipNewlines tokens p7) with
                  | .error e => .error e
                  | .ok (orelse, p9) => .ok (.ifStmt cond body orelse, p9)
              else .ok (.ifStmt cond body [], p5)
            | none => .ok (.ifStmt cond body [], p5)

/-- Parser.parse_for. -/
def parseFor : Nat → List Token → Nat → Except PErr (Stmt × Nat)
  | 0, _, _ => .error .fuel
  | fuel + 1, tokens, pos =>
    match expectT "KEYWORD" tokens pos with
    | .error e => .error e
    | .ok (_, p1) =>
      match expectT "IDENT" tokens p1 with
      | .error e => .error e
      | .ok (varTok, p2) =>
        match expectT "KEYWORD" tokens p2 with
        | .error e => .error e
        | .ok (_, p3) =>
          match parseExpression fuel tokens p3 with
          | .error e => .error e
          | .ok (iter, p4) =>
            match expectT "DELIM" tokens p4 with
            | .error e => .error e
            | .ok (_, p5) =>
              match parseBlock fuel tokens (skipNewlines tokens p5) with
              | .error e => .error e
              | .ok (body, p6) => .ok (.forStmt varTok.value iter body, p6)

/-- Parser.parse_while. -/
def parseWhile : Nat → List Token → Nat → Except PErr (Stmt × Nat)
  | 0, _, _ => .error .fuel
  | fuel + 1, tokens, pos =>
    match expectT "KEYWORD" tokens pos with
    | .error e => .error e
    | .ok (_, p1) =>
      match parseExpression fuel tokens p1 with
      | .error e => .error e
      | .ok (cond, p2) =>
        match expectT "DELIM" tokens p2 with
        | .error e => .error e
        | .ok (_, p3) =>
          match parseBlock fuel tokens (skipNewlines tokens p3) with
          | .error e => .error e
          | .ok (body, p4) => .ok (.whileStmt cond body, p4)

/-- Parser.parse_block: statements until the stream is exhausted, EOF, or a
KEYWORD among def, if, for, while (left unconsumed); NEWLINE tokens are
skipped. -/
def parseBlock : Nat → List Token → Nat → Except PErr (List Stmt × Nat)
  | 0, _, _ => .error .fuel
  | fuel + 1, tokens, pos =>
    match tokens[pos]? with
    | none => .ok ([], pos)
    | some tok =>
      if tok.type = "EOF" then .ok ([], pos)
      else if tok.type = "NEWLINE" then parseBlock fuel tokens (pos + 1)
      else if tok.type = "KEYWORD" ∧ (tok.value = .vstr "def" ∨ tok.value = .vstr "if" ∨
                tok.value = .vstr "for" ∨ tok.value = .vstr "while") then .ok ([], pos)
      else
        match parseStatement fuel tokens pos with
        | .error e => .error e
        | .ok (stmt, p1) =>
          match parseBlock fuel tokens p1 with
          | .error e => .error e
          | .ok (rest, p2) => .ok (stmt :: rest, p2)

/-- Parser.parse_assignment_or_expr: an IDENT whose following token has
literal value "=" yields Assign, anything else a bare Expression. -/
def parseAssignOrExpr : Nat → List Token → Nat → Except PErr (Stmt × Nat)
  | 0, _, _ => .error .fuel
  | fuel + 1, tokens, pos =>
    match tokens[pos]? with
    | none => .error .attrNone
    | some tok =>
      if tok.type = "IDENT" then
        match tokens[pos + 1]? with
        | some t1 =>
          if t1.value = .vstr "=" then
            match parseExpression fuel tokens (pos + 2) with
            | .error e => .error e
            | .ok (e, p2) => .ok (.assign tok.value e, p2)
          else
            match parseExpression fuel tokens pos with
            | .error e => .error e
            | .ok (e, p) => .ok (.expression e, p)
        | none =>
          match parseExpression fuel tokens pos with
          | .error e => .error e
          | .ok (e, p) => .ok (.expression e, p)
      else
        match parseExpression fuel tokens pos with
        | .error e => .error e
        | .ok (e, p) => .ok (.expression e, p)

/-- Parser.parse_expression: number or string literal, identifier possibly
followed by a call argument list, parenthesized expression, or the
fallback that consumes one token and returns its value. -/
def parseExpression : Nat → List Token → Nat → Except PErr (PExpr × Nat)
  | 0, _, _ => .error .fuel
  | fuel + 1, tokens, pos =>
    match tokens[pos]? with
    | none => .error .attrNone
    | some tok =>
      if tok.type = "NUMBER" ∨ tok.type = "STRING" then .ok (.val tok.value, pos + 1)
      else if tok.type = "IDENT" then
        match tokens[pos + 1]? with
        | some t1 =>
          if t1.value = .vstr "(" then
            match parseCallArgs fuel tokens (pos + 2) with
            | .error e => .error e
            | .ok (args, p2) =>
              match expectT "DELIM" tokens p2 with
              | .error e => .error e
              | .ok (_, p3) => .ok (.call tok.value args, p3)
          else .ok (.val tok.value, pos + 1)
        | none => .ok (.val tok.value, pos + 1)
      else if tok.type = "DELIM" ∧ tok.value = .vstr "(" then
        match parseExpression fuel tokens (pos + 1) with
        | .error e => .error e
        | .ok (e, p1) =>
          match expectT "DELIM" tokens p1 with
          | .error e => .error e
          | .ok (_, p2) => .ok (e, p2)
      else .ok (.val tok.value, pos + 1)

/-- Argument loop inside the call branch of Parser.parse_expression.  Both
peeks read .value without a None guard, so a peek past the end of the
stream is the AttributeError case. -/
def parseCallArgs : Nat → List Token → Nat → Except PErr (List PExpr × Nat)
  | 0, _, _ => .error .fuel
  | fuel + 1, tokens, pos =>
    match tokens[pos]? with
    | none => .error .attrNone
    | some t =>
      if t.value = .vstr ")" then .ok ([], pos)
      else
        match parseExpression fuel tokens pos with
        | .error e => .error e
        | .ok (a, p1) =>
          match tokens[p1]? with
          | none => .error .attrNone
          | some t2 =>
            if t2.value = .vstr "," then
              match parseCallArgs fuel tokens (p1 + 1) with
              | .error e => .error e
              | .ok (rest, p2) => .ok (a :: rest, p2)
            else .ok ([a], p1)

/-- Parser.parse: statements until the stream is exhausted or EOF. -/
def parseProgram : Nat → List Token → Nat → Except PErr (List Stmt × Nat)
  | 0, _, _ => .error .fuel
  | fuel + 1, tokens, pos =>
    match tokens[pos]? with
    | none => .ok ([], pos)
    | some tok =>
      if tok.type = "EOF" then .ok ([], pos)
      else
        match parseStatement fuel tokens pos with
        | .error e => .error e
        | .ok (stmt, p1) =>
          match parseProgram fuel tokens p1 with
          | .error e => .error e
          | .ok (rest, p2) => .ok (stmt :: rest, p2)

end

unseal parseStatement parseFunction parseIf parseFor parseWhile parseBlock

/-- Parser(tokens).parse() with a fuel value amply sufficient for the token
lists considered (each recursive call either consumes a token first or is a
directly nested production). -/
def parseAll (tokens : List Token) : Except PErr Program :=
  match parseProgram (8 * tokens.length + 8) tokens 0 with
  | .ok (body, _) => .ok ⟨body⟩
  | .error e => .error e

/-- Lex then parse, the pipeline of src/main.py restricted to the front
end. -/
def lexParse (s : String) : Option (Except PErr Program) :=
  (tokenize s).map parseAll

/-!  Auxiliary definitions used by the statements below. -/

/-- Column value after consuming the characters cs starting from column c,
following the specified rule: reset to 0 immediately after each newline,
otherwise increment by one per consumed character. -/
def colAfter (cs : List Char) (c : Nat) : Nat :=
  cs.foldl (fun acc ch => if ch = '\n' then 0 else acc + 1) c

/-- Whether the string scan finds a closing quote in the remaining
characters, following exactly the matching discipline of the loop in
Lexer._read_string: a backslash makes the following character escaped (so
it cannot close the literal, and a trailing backslash closes nothing), the
quote closes, any other character continues.  The opening quote of a
literal is never matched before end of input precisely when this is
false. -/
def closesAt (q : Char) : List Char → Bool
  | [] => false
  | ch :: rest =>
    if ch = '\\' then
      match rest with
      | [] => false
      | _ :: rest2 => closesAt q rest2
    else if ch = q then true
    else closesAt q rest

/-- The content accumulated by the string scan, read off the remaining
characters: an escaped character goes through escMap, a trailing backslash
is dropped, the closing quote ends the content, any other character is
kept verbatim.  This is the partial content read so far when the literal
is unterminated. -/
def strContent (q : Char) : List Char → List Char
  | [] => []
  | ch :: rest =>
    if ch = '\\' then
      match rest with
      | [] => []
      | nxt :: rest2 => escMap nxt :: strContent q rest2
    else if ch = q then []
    else ch :: strContent q rest

/-- The stop condition of Parser.parse_block at a position: stream
exhausted, EOF token, or a KEYWORD among def, if, for, while. -/
def blockStopCond (tokens : List Token) (pos : Nat) : Prop :=
  tokens[pos]? = none ∨
    ∃ t, tokens[pos]? = some t ∧
      (t.type = "EOF" ∨ (t.type = "KEYWORD" ∧ (t.value = .vstr "def" ∨ t.value = .vstr "if" ∨
        t.value = .vstr "for" ∨ t.value = .vstr "while")))

/-- Target name of an Assign statement, none for any other statement. -/
def Stmt.assignTargetOf : Stmt → Option TokValue
  | .assign n _ => some n
  | _ => none

/-- True exactly for a bare Expression statement. -/
def Stmt.isExprStmt : Stmt → Bool
  | .expression _ => true
  | _ => false

/-!  Helper lemmas about the lexer. -/

theorem adv1_rem (st : LexState) : (adv1 st).rem = st.rem.tail := by
  cases st with
  | mk rem line col =>
    cases rem with
    | nil => rfl
    | cons ch rest => by_cases h : ch = '\n' <;> simp [adv1, stepLC, h]

/-- Closed form of Lexer._advance(n): drop n characters, add one line per
consumed newline, track the column with colAfter. -/
theorem advN_spec (n : Nat) (st : LexState) :
    advN n st = ⟨st.rem.drop n, st.line + (st.rem.take n).count '\n',
                 colAfter (st.rem.take n) st.col⟩ := by
  induction n generalizing st with
  | zero => simp [advN, colAfter]
  | succ n ih =>
    cases st with
    | mk rem line col =>
      cases rem with
      | nil =>
        show advN n ⟨[], line, col⟩ = _
        rw [ih]
        simp [colAfter]
      | cons ch rest =>
        show advN n (adv1 ⟨ch :: rest, line, col⟩) = _
        by_cases hch : ch = '\n'
        · subst hch
          simp only [adv1, stepLC, if_pos rfl]
          rw [ih]
          simp [colAfter, List.count_cons]
          omega
        · simp only [adv1, stepLC, if_neg hch]
          rw [ih]
          simp [colAfter, List.count_cons, hch]

theorem advN_rem (n : Nat) (st : LexState) : (advN n st).rem = st.rem.drop n := by
  rw [advN_spec]

theorem advN_line_of_no_newline (n : Nat) (st : LexState)
    (h : '\n' ∉ st.rem.take n) : (advN n st).line = st.line := by
  rw [advN_spec]
  simp [List.count_eq_zero.mpr h]

/-- The prefix consumed by takeWhile is recovered by take of its length. -/
theorem take_takeWhile_length (l : List Char) (p : Char → Bool) :
    l.take (l.takeWhile p).length = l.takeWhile p := by
  induction l with
  | nil => rfl
  | cons c rest ih =>
    by_cases h : p c
    · simp [List.takeWhile_cons, h, ih]
    · simp [List.takeWhile_cons, h]

/-- The prefix consumed by the number loop is recovered by take of its
length. -/
theorem take_numChars_length (l : List Char) (b : Bool) :
    l.take (numChars l b).length = numChars l b := by
  induction l generalizing b with
  | nil => rfl
  | cons c rest ih =>
    rw [numChars]
    split
    · simp [ih]
    · split
      · simp [ih]
      · simp

/-- The number loop consumes only digits and the decimal point. -/
theorem newline_not_mem_numChars (l : List Char) (b : Bool) :
    '\n' ∉ numChars l b := by
  induction l generalizing b with
  | nil => simp [numChars]
  | cons c rest ih =>
    rw [numChars]
    split
    · rename_i hdot
      simp only [List.mem_cons, not_or]
      exact ⟨by rintro rfl; simp at hdot, ih true⟩
    · split
      · rename_i hdig
        simp only [List.mem_cons, not_or]
        refine ⟨?_, ih b⟩
        rintro rfl
        simp at hdig
      · simp

/-- No operator in OPERATORS contains a newline character. -/
theorem no_newline_in_operators : ∀ s ∈ OPERATORS, '\n' ∉ s.data := by decide

theorem dropCommentAux_length (cs : List Char) (c : Nat) :
    (dropCommentAux cs c).1.length ≤ cs.length := by
  induction cs generalizing c with
  | nil => simp [dropCommentAux]
  | cons ch rest ih =>
    rw [dropCommentAux]
    split
    · simp
    · exact le_trans (ih (c + 1)) (by simp)

/-- One unfolding step of skipWsAux on a non-empty remainder. -/
theorem skipWsAux_cons (k : Nat) (ch : Char) (rest : List Char) (line col : Nat) :
    skipWsAux (k + 1) ⟨ch :: rest, line, col⟩ =
      (if ch = ' ' ∨ ch = '\t' ∨ ch = '\r' then skipWsAux k ⟨rest, line, col + 1⟩
       else if ch = '\n' then ⟨ch :: rest, line, col⟩
       else if ch = '#' then
         skipWsAux k ⟨(dropCommentAux rest (col + 1)).1, line, (dropCommentAux rest (col + 1)).2⟩
       else ⟨ch :: rest, line, col⟩) := rfl

theorem skipWsAux_length (k : Nat) : ∀ st : LexState,
    (skipWsAux k st).rem.length ≤ st.rem.length := by
  induction k with
  | zero => intro st; simp [skipWsAux]
  | succ k ih =>
    rintro ⟨rem, line, col⟩
    cases rem with
    | nil => simp [skipWsAux]
    | cons ch rest =>
      rw [skipWsAux_cons]
      split
      · exact le_trans (ih _) (by simp)
      · split
        · simp
        · split
          · refine le_trans (ih _) ?_
            have := dropCommentAux_length rest (col + 1)
            simp only [List.length_cons]
            omega
          · simp

theorem skipWs_length (st : LexState) : (skipWs st).rem.length ≤ st.rem.length :=
  skipWsAux_length st.rem.length st

/-- One unfolding step of the string loop on a non-empty remainder. -/
theorem readStrAux_cons (quote ch : Char) (rest : List Char) (l c : Nat) (buf : List Char) :
    readStrAux quote (ch :: rest) l c buf =
      (if ch = '\\' then
        match rest with
        | [] => (buf.reverse, [], (stepLC ch l c).1, (stepLC ch l c).2)
        | nxt :: rest2 =>
          readStrAux quote rest2
            (stepLC nxt (stepLC ch l c).1 (stepLC ch l c).2).1
            (stepLC nxt (stepLC ch l c).1 (stepLC ch l c).2).2
            (escMap nxt :: buf)
      else if ch = quote then (buf.reverse, rest, (stepLC ch l c).1, (stepLC ch l c).2)
      else readStrAux quote rest (stepLC ch l c).1 (stepLC ch l c).2 (ch :: buf)) := by
  rw [readStrAux.eq_def]

/-- The string loop only consumes characters: the remainder it returns is
no longer than its input (bounded form for induction). -/
theorem readStrAux_rem_length_aux (quote : Char) (n : Nat) : ∀ cs : List Char, cs.length ≤ n →
    ∀ (l c : Nat) (buf : List Char), (readStrAux quote cs l c buf).2.1.length ≤ cs.length := by
  induction n with
  | zero =>
    intro cs hcs l c buf
    have : cs = [] := List.length_eq_zero.mp (Nat.le_zero.mp hcs)
    subst this
    simp [readStrAux]
  | succ n ih =>
    intro cs hcs l c buf
    match cs with
    | [] => simp [readStrAux]
    | ch :: rest =>
      by_cases hb : ch = '\\'
      · subst hb
        match rest with
        | [] => simp [readStrAux_cons]
        | nxt :: rest2 =>
          rw [readStrAux_cons, if_pos rfl]
          have h2 : rest2.length ≤ n := by simp at hcs; omega
          have := ih rest2 h2
            (stepLC nxt (stepLC '\\' l c).1 (stepLC '\\' l c).2).1
            (stepLC nxt (stepLC '\\' l c).1 (stepLC '\\' l c).2).2
            (escMap nxt :: buf)
          simp only [List.length_cons]
          omega
      · by_cases hq : ch = quote
        · rw [readStrAux_cons, if_neg hb, if_pos hq]
          simp
        · rw [readStrAux_cons, if_neg hb, if_neg hq]
          have h2 : rest.length ≤ n := by simp at hcs; omega
          have := ih rest h2 (stepLC ch l c).1 (stepLC ch l c).2 (ch :: buf)
          simp only [List.length_cons]
          omega

/-- The string loop only consumes characters. -/
theorem readStrAux_rem_length (quote : Char) (cs : List Char) (l c : Nat) (buf : List Char) :
    (readStrAux quote cs l c buf).2.1.length ≤ cs.length :=
  readStrAux_rem_length_aux quote cs.length cs le_rfl l c buf

/-- Branch guard implies the identifier loop consumes the head character. -/
theorem isIdentChar_of_alpha (c : Char) (h : c.isAlpha ∨ c = '_') : isIdentChar c = true := by
  rcases h with h | h
  · simp [isIdentChar, Char.isAlphanum, h]
  · simp [isIdentChar, h]

/-- Advancing a positive number of characters on a non-empty remainder
strictly shrinks the remainder. -/
theorem advN_len_lt (n : Nat) (st : LexState) (hn : 1 ≤ n) (hr : st.rem ≠ []) :
    (advN n st).rem.length < st.rem.length := by
  rw [advN_rem]
  have h0 : st.rem.length ≠ 0 := by simpa using hr
  simp only [List.length_drop]
  omega

/-- One unfolding step of nextTokenCore on a non-empty remainder. -/
theorem nextTokenCore_cons (c : Char) (cs : List Char) (line col : Nat) :
    nextTokenCore ⟨c :: cs, line, col⟩ =
      (if c = '\n' then
        some (⟨"NEWLINE", .vstr "\\n", line, col⟩, adv1 ⟨c :: cs, line, col⟩)
      else if c.isAlpha ∨ c = '_' then some (readIdentifierOrKeyword ⟨c :: cs, line, col⟩)
      else if c.isDigit then some (readNumber ⟨c :: cs, line, col⟩)
      else if c = '\'' ∨ c = '"' then some (readString ⟨c :: cs, line, col⟩)
      else if c ∈ DELIMITERS then
        some (⟨"DELIM", .vstr (String.mk [c]), line, col⟩, adv1 ⟨c :: cs, line, col⟩)
      else
        match tryMultiCharOperator ⟨c :: cs, line, col⟩ with
        | some r => some r
        | none =>
          some (⟨"UNKNOWN", .vstr (String.mk [c]), line, col⟩, adv1 ⟨c :: cs, line, col⟩)) := rfl

/-- Every token emitted by the main loop consumes at least one character. -/
theorem nextTokenCore_rem_lt (st : LexState) (t : Token) (st' : LexState)
    (h : nextTokenCore st = some (t, st')) : st'.rem.length < st.rem.length := by
  obtain ⟨rem, line, col⟩ := st
  cases rem with
  | nil => exact absurd h (by simp [nextTokenCore])
  | cons c cs =>
    rw [nextTokenCore_cons] at h
    by_cases h1 : c = '\n'
    · rw [if_pos h1] at h
      simp only [Option.some.injEq, Prod.mk.injEq] at h
      rw [← h.2]
      exact advN_len_lt 1 _ le_rfl (by simp)
    rw [if_neg h1] at h
    by_cases h2 : c.isAlpha ∨ c = '_'
    · rw [if_pos h2] at h
      simp only [readIdentifierOrKeyword, Option.some.injEq, Prod.mk.injEq] at h
      rw [← h.2]
      refine advN_len_lt _ _ ?_ (by simp)
      rw [List.takeWhile_cons, if_pos (isIdentChar_of_alpha c h2)]
      simp
    rw [if_neg h2] at h
    by_cases h3 : c.isDigit
    · rw [if_pos h3] at h
      simp only [readNumber, Option.some.injEq, Prod.mk.injEq] at h
      rw [← h.2]
      refine advN_len_lt _ _ ?_ (by simp)
      have hcdot : ¬(c = '.' ∧ (false : Bool) = false) := by
        rintro ⟨rfl, -⟩
        exact absurd h3 (by decide)
      rw [numChars, if_neg hcdot, if_pos h3]
      simp
    rw [if_neg h3] at h
    by_cases h4 : c = '\'' ∨ c = '"'
    · rw [if_pos h4] at h
      simp only [readString, Option.some.injEq, Prod.mk.injEq] at h
      rw [← h.2]
      have := readStrAux_rem_length c cs (stepLC c line col).1 (stepLC c line col).2 []
      simp only [List.length_cons]
      omega
    rw [if_neg h4] at h
    by_cases h5 : c ∈ DELIMITERS
    · rw [if_pos h5] at h
      simp only [Option.some.injEq, Prod.mk.injEq] at h
      rw [← h.2]
      exact advN_len_lt 1 _ le_rfl (by simp)
    rw [if_neg h5] at h
    cases hm : tryMultiCharOperator ⟨c :: cs, line, col⟩ with
    | some r =>
      rw [hm] at h
      simp only [Option.some.injEq] at h
      rw [tryMultiCharOperator] at hm
      by_cases hop3 : ((c :: cs).take 3).asString ∈ OPERATORS
      · rw [if_pos hop3] at hm
        simp only [Option.some.injEq] at hm
        rw [← hm] at h
        simp only [opTok, Prod.mk.injEq] at h
        rw [← h.2]
        exact advN_len_lt 3 _ (by omega) (by simp)
      rw [if_neg hop3] at hm
      by_cases hop2 : ((c :: cs).take 2).asString ∈ OPERATORS
      · rw [if_pos hop2] at hm
        simp only [Option.some.injEq] at hm
        rw [← hm] at h
        simp only [opTok, Prod.mk.injEq] at h
        rw [← h.2]
        exact advN_len_lt 2 _ (by omega) (by simp)
      rw [if_neg hop2] at hm
      by_cases hop1 : String.mk [c] ∈ OPERATORS
      · simp only [if_pos hop1, Option.some.injEq] at hm
        rw [← hm] at h
        simp only [opTok, Prod.mk.injEq] at h
        rw [← h.2]
        exact advN_len_lt 1 _ le_rfl (by simp)
      · simp [if_neg hop1] at hm
    | none =>
      rw [hm] at h
      simp only [Option.some.injEq, Prod.mk.injEq] at h
      rw [← h.2]
      exact advN_len_lt 1 _ le_rfl (by simp)

/-- With fuel exceeding the number of remaining characters the fuelled
tokenizer loop always returns a token list. -/
theorem tokenizeAux_isSome : ∀ (fuel : Nat) (st : LexState), st.rem.length < fuel →
    (tokenizeAux fuel st).isSome := by
  intro fuel
  induction fuel with
  | zero => intro st h; omega
  | succ n ih =>
    intro st h
    rw [tokenizeAux]
    by_cases he : st.rem.isEmpty
    · rw [if_pos he]; simp
    rw [if_neg he]
    show (match nextTokenCore (skipWs st) with
          | none => some [Token.mk "EOF" TokValue.vnone (skipWs st).line (skipWs st).col]
          | some (t, st2) => (tokenizeAux n st2).map (fun ts => t :: ts)).isSome = true
    cases hn : nextTokenCore (skipWs st) with
    | none => simp
    | some r =>
      obtain ⟨t, st2⟩ := r
      have hrec : (tokenizeAux n st2).isSome := by
        refine ih st2 ?_
        have hlt : st2.rem.length < (skipWs st).rem.length := nextTokenCore_rem_lt _ _ _ hn
        have hle : (skipWs st).rem.length ≤ st.rem.length := skipWs_length st
        omega
      obtain ⟨ts, hts⟩ := Option.isSome_iff_exists.mp hrec
      show ((tokenizeAux n st2).map (fun ts => t :: ts)).isSome = true
      rw [hts]
      simp

/-- Lexer.tokenize never fails. -/
theorem tokenize_isSome (s : String) : (tokenize s).isSome := by
  refine tokenizeAux_isSome _ _ ?_
  exact Nat.lt_succ_self s.data.length

/-- Start column and scan line of every token produced by the main loop:
the column is the one current at the start of the token; the line is the
one current at the start for every token except STRING, which records the
line reached at the end of its scan. -/
theorem nextTokenCore_position (st : LexState) (t : Token) (st' : LexState)
    (h : nextTokenCore st = some (t, st')) :
    t.col = st.col ∧ (t.type ≠ "STRING" → t.line = st.line) ∧
      (t.type = "STRING" → t.line = st'.line) := by
  obtain ⟨rem, line, col⟩ := st
  cases rem with
  | nil => exact absurd h (by simp [nextTokenCore])
  | cons c cs =>
    rw [nextTokenCore_cons] at h
    by_cases h1 : c = '\n'
    · rw [if_pos h1] at h
      simp only [Option.some.injEq, Prod.mk.injEq] at h
      obtain ⟨ht, hst⟩ := h
      subst ht
      exact ⟨rfl, fun _ => rfl, fun hS => by simp at hS⟩
    rw [if_neg h1] at h
    by_cases h2 : c.isAlpha ∨ c = '_'
    · rw [if_pos h2] at h
      simp only [readIdentifierOrKeyword, Option.some.injEq, Prod.mk.injEq] at h
      obtain ⟨ht, hst⟩ := h
      subst ht
      subst hst
      have hnl : '\n' ∉ (c :: cs).take ((c :: cs).takeWhile isIdentChar).length := by
        rw [take_takeWhile_length]
        intro hmem
        exact absurd (List.mem_takeWhile_imp hmem) (by decide)
      have hline := advN_line_of_no_newline ((c :: cs).takeWhile isIdentChar).length
        ⟨c :: cs, line, col⟩ hnl
      exact ⟨rfl, fun _ => hline, fun _ => rfl⟩
    rw [if_neg h2] at h
    by_cases h3 : c.isDigit
    · rw [if_pos h3] at h
      simp only [readNumber, Option.some.injEq, Prod.mk.injEq] at h
      obtain ⟨ht, hst⟩ := h
      subst ht
      subst hst
      have hnl : '\n' ∉ (c :: cs).take (numChars (c :: cs) false).length := by
        rw [take_numChars_length]
        exact newline_not_mem_numChars (c :: cs) false
      have hline := advN_line_of_no_newline (numChars (c :: cs) false).length
        ⟨c :: cs, line, col⟩ hnl
      exact ⟨rfl, fun _ => hline, fun _ => rfl⟩
    rw [if_neg h3] at h
    by_cases h4 : c = '\'' ∨ c = '"'
    · rw [if_pos h4] at h
      simp only [readString, Option.some.injEq, Prod.mk.injEq] at h
      obtain ⟨ht, hst⟩ := h
      subst ht
      subst hst
      exact ⟨rfl, fun hS => absurd rfl hS, fun _ => rfl⟩
    rw [if_neg h4] at h
    by_cases h5 : c ∈ DELIMITERS
    · rw [if_pos h5] at h
      simp only [Option.some.injEq, Prod.mk.injEq] at h
      obtain ⟨ht, hst⟩ := h
      subst ht
      exact ⟨rfl, fun _ => rfl, fun hS => by simp at hS⟩
    rw [if_neg h5] at h
    cases hm : tryMultiCharOperator ⟨c :: cs, line, col⟩ with
    | some r =>
      rw [hm] at h
      simp only [Option.some.injEq] at h
      have hop : ∃ s n, 1 ≤ n ∧ ((c :: cs).take n).asString = s ∧ s ∈ OPERATORS ∧
          r = opTok s n ⟨c :: cs, line, col⟩ := by
        rw [tryMultiCharOperator] at hm
        by_cases hop3 : ((c :: cs).take 3).asString ∈ OPERATORS
        · rw [if_pos hop3] at hm
          simp only [Option.some.injEq] at hm
          exact ⟨_, 3, by omega, rfl, hop3, hm.symm⟩
        rw [if_neg hop3] at hm
        by_cases hop2 : ((c :: cs).take 2).asString ∈ OPERATORS
        · rw [if_pos hop2] at hm
          simp only [Option.some.injEq] at hm
          exact ⟨_, 2, by omega, rfl, hop2, hm.symm⟩
        rw [if_neg hop2] at hm
        by_cases hop1 : String.mk [c] ∈ OPERATORS
        · simp only [if_pos hop1, Option.some.injEq] at hm
          refine ⟨String.mk [c], 1, le_rfl, ?_, hop1, hm.symm⟩
          rfl
        · simp [if_neg hop1] at hm
      obtain ⟨s, n, hn1, hsn, hsop, hr⟩ := hop
      subst hr
      simp only [opTok, Prod.mk.injEq] at h
      obtain ⟨ht, hst⟩ := h
      subst ht
      subst hst
      have hnl : '\n' ∉ (c :: cs).take n := by
        have := no_newline_in_operators s hsop
        rw [← hsn] at this
        simpa using this
      have hline := advN_line_of_no_newline n ⟨c :: cs, line, col⟩ hnl
      exact ⟨rfl, fun _ => hline, fun hS => by simp at hS⟩
    | none =>
      rw [hm] at h
      simp only [Option.some.injEq, Prod.mk.injEq] at h
      obtain ⟨ht, hst⟩ := h
      subst ht
      exact ⟨rfl, fun _ => rfl, fun hS => by simp at hS⟩

/-- C4: for every input text, tokenize returns a token list and never
fails; a character recognized by none of the newline, identifier, number,
string, delimiter or operator scans is emitted as an UNKNOWN token holding
that character, and the lexer advances past it.  (Full consumption is
forced by the loop structure: the EOF token is only emitted once the
remainder is empty.) -/
theorem c4_lexer_never_fails :
    (∀ s : String, (tokenize s).isSome) ∧
    (∀ (st : LexState) (c : Char) (rest : List Char),
      st.rem = c :: rest →
      ¬c = '\n' ∧ ¬(c.isAlpha ∨ c = '_') ∧ ¬c.isDigit = true ∧ ¬(c = '\'' ∨ c = '"') ∧
        c ∉ DELIMITERS ∧ tryMultiCharOperator st = none →
      nextTokenCore st =
        some (⟨"UNKNOWN", .vstr (String.mk [c]), st.line, st.col⟩, adv1 st)) := by
  constructor
  · exact tokenize_isSome
  · rintro ⟨rem, line, col⟩ c rest hrem ⟨h1, h2, h3, h4, h5, h6⟩
    subst hrem
    rw [nextTokenCore_cons, if_neg h1, if_neg h2, if_neg h3, if_neg h4, if_neg h5, h6]

/-- Witness for c4_lexer_never_fails at the input consisting of one
at-sign, a character no scanner recognizes. -/
theorem c4_witness :
    (tokenize "@").isSome ∧
    nextTokenCore ⟨['@'], 1, 0⟩ =
      some (⟨"UNKNOWN", .vstr (String.mk ['@']), 1, 0⟩, adv1 ⟨['@'], 1, 0⟩) :=
  ⟨c4_lexer_never_fails.1 "@",
   c4_lexer_never_fails.2 ⟨['@'], 1, 0⟩ '@' [] rfl (by decide)⟩

/-- C6 counterexample: the lexer is run on a double-quoted string literal
whose content contains a raw newline.  The STRING token begins at the very
first input character, where the counters are still line 1 and column 0,
yet the emitted token carries line 2 (the line reached at the closing
quote); so not every token carries the line current at its start. -/
theorem c6_counterexample :
    tokenize "\"a\nb\"" =
      some [⟨"STRING", .vstr "a\nb", 2, 0⟩, ⟨"EOF", .vnone, 2, 2⟩] ∧
    (LexState.mk "\"a\nb\"".data 1 0).line = 1 ∧
    decide ((2 : Nat) = 1) = false := ⟨rfl, rfl, rfl⟩

/-- C6 as amended: the line counter grows by exactly one per consumed
newline and the column counter follows colAfter (reset to 0 after a
newline, else increment); every emitted token carries the column current
at its start, and the line current at its start for every token type
except STRING, which carries the line current at the end of its scan. -/
theorem c6_position_invariant :
    (∀ (st : LexState) (n : Nat),
        advN n st = ⟨st.rem.drop n, st.line + (st.rem.take n).count '\n',
                     colAfter (st.rem.take n) st.col⟩) ∧
    (∀ (st : LexState) (t : Token) (st' : LexState),
        nextTokenCore st = some (t, st') →
        t.col = st.col ∧ (t.type ≠ "STRING" → t.line = st.line) ∧
          (t.type = "STRING" → t.line = st'.line)) :=
  ⟨fun st n => advN_spec n st, nextTokenCore_position⟩

/-- Witness for c6_position_invariant: advancing across a newline, and an
identifier token carrying its start column and start line. -/
theorem c6_witness :
    advN 2 ⟨['a', '\n'], 1, 0⟩ = ⟨[], 2, 0⟩ ∧
    (Token.mk "IDENT" (TokValue.vstr "x") 1 0).col = 0 ∧
    (Token.mk "IDENT" (TokValue.vstr "x") 1 0).line = 1 :=
  ⟨c6_position_invariant.1 ⟨['a', '\n'], 1, 0⟩ 2,
   (c6_position_invariant.2 ⟨['x'], 1, 0⟩ (Token.mk "IDENT" (TokValue.vstr "x") 1 0)
     ⟨[], 1, 1⟩ rfl).1,
   (c6_position_invariant.2 ⟨['x'], 1, 0⟩ (Token.mk "IDENT" (TokValue.vstr "x") 1 0)
     ⟨[], 1, 1⟩ rfl).2.1 (by simp)⟩

/-- A token of NEWLINE type produced by the main loop always holds the
two-character escape text as its value. -/
theorem nextTokenCore_newline_value (st : LexState) (t : Token) (st' : LexState)
    (h : nextTokenCore st = some (t, st')) (htype : t.type = "NEWLINE") :
    t.value = .vstr "\\n" := by
  obtain ⟨rem, line, col⟩ := st
  cases rem with
  | nil => exact absurd h (by simp [nextTokenCore])
  | cons c cs =>
    rw [nextTokenCore_cons] at h
    by_cases h1 : c = '\n'
    · rw [if_pos h1] at h
      simp only [Option.some.injEq, Prod.mk.injEq] at h
      rw [← h.1]
    rw [if_neg h1] at h
    by_cases h2 : c.isAlpha ∨ c = '_'
    · rw [if_pos h2] at h
      simp only [readIdentifierOrKeyword, Option.some.injEq, Prod.mk.injEq] at h
      obtain ⟨ht, -⟩ := h
      subst ht
      split at htype
      · simp at htype
      · split at htype <;> simp at htype
    rw [if_neg h2] at h
    by_cases h3 : c.isDigit
    · rw [if_pos h3] at h
      simp only [readNumber, Option.some.injEq, Prod.mk.injEq] at h
      obtain ⟨ht, -⟩ := h
      subst ht
      simp at htype
    rw [if_neg h3] at h
    by_cases h4 : c = '\'' ∨ c = '"'
    · rw [if_pos h4] at h
      simp only [readString, Option.some.injEq, Prod.mk.injEq] at h
      obtain ⟨ht, -⟩ := h
      subst ht
      simp at htype
    rw [if_neg h4] at h
    by_cases h5 : c ∈ DELIMITERS
    · rw [if_pos h5] at h
      simp only [Option.some.injEq, Prod.mk.injEq] at h
      obtain ⟨ht, -⟩ := h
      subst ht
      simp at htype
    rw [if_neg h5] at h
    cases hm : tryMultiCharOperator ⟨c :: cs, line, col⟩ with
    | some r =>
      rw [hm] at h
      simp only [Option.some.injEq] at h
      rw [tryMultiCharOperator] at hm
      by_cases hop3 : ((c :: cs).take 3).asString ∈ OPERATORS
      · rw [if_pos hop3] at hm
        simp only [Option.some.injEq] at hm
        rw [← hm, opTok] at h
        simp only [Prod.mk.injEq] at h
        obtain ⟨ht, -⟩ := h
        subst ht
        simp at htype
      rw [if_neg hop3] at hm
      by_cases hop2 : ((c :: cs).take 2).asString ∈ OPERATORS
      · rw [if_pos hop2] at hm
        simp only [Option.some.injEq] at hm
        rw [← hm, opTok] at h
        simp only [Prod.mk.injEq] at h
        obtain ⟨ht, -⟩ := h
        subst ht
        simp at htype
      rw [if_neg hop2] at hm
      by_cases hop1 : String.mk [c] ∈ OPERATORS
      · simp only [if_pos hop1, Option.some.injEq] at hm
        rw [← hm, opTok] at h
        simp only [Prod.mk.injEq] at h
        obtain ⟨ht, -⟩ := h
        subst ht
        simp at htype
      · simp [if_neg hop1] at hm
    | none =>
      rw [hm] at h
      simp only [Option.some.injEq, Prod.mk.injEq] at h
      obtain ⟨ht, -⟩ := h
      subst ht
      simp at htype

/-- Every NEWLINE token in a tokenizer run holds the escape text value. -/
theorem tokenizeAux_newline_value : ∀ (fuel : Nat) (st : LexState) (ts : List Token),
    tokenizeAux fuel st = some ts →
    ∀ t ∈ ts, t.type = "NEWLINE" → t.value = .vstr "\\n" := by
  intro fuel
  induction fuel with
  | zero => intro st ts h; simp [tokenizeAux] at h
  | succ n ih =>
    intro st ts h t hmem htype
    rw [tokenizeAux] at h
    by_cases he : st.rem.isEmpty
    · rw [if_pos he] at h
      simp only [Option.some.injEq] at h
      subst h
      simp only [List.mem_singleton] at hmem
      subst hmem
      simp at htype
    rw [if_neg he] at h
    have h' : (match nextTokenCore (skipWs st) with
        | none => some [Token.mk "EOF" TokValue.vnone (skipWs st).line (skipWs st).col]
        | some (t0, st2) => (tokenizeAux n st2).map (fun ts => t0 :: ts)) = some ts := h
    cases hn : nextTokenCore (skipWs st) with
    | none =>
      rw [hn] at h'
      simp only [Option.some.injEq] at h'
      subst h'
      simp only [List.mem_singleton] at hmem
      subst hmem
      simp at htype
    | some r =>
      obtain ⟨t0, st2⟩ := r
      rw [hn] at h'
      simp only [] at h'
      obtain ⟨ts', hts', hcons⟩ := Option.map_eq_some'.mp h'
      subst hcons
      rcases List.mem_cons.mp hmem with hmem | hmem
      · subst hmem
        exact nextTokenCore_newline_value _ _ _ hn htype
      · exact ih st2 ts' hts' t hmem htype

/-- C10: every NEWLINE token emitted by tokenize carries as its value the
two-character escape text (backslash followed by the letter n), never a
raw newline character, while the newline character itself is consumed
from the input (the state moves past it to the next line). -/
theorem c10_newline_token_value :
    (∀ (s : String) (ts : List Token), tokenize s = some ts →
        ∀ t ∈ ts, t.type = "NEWLINE" → t.value = .vstr "\\n") ∧
    (∀ (st : LexState) (rest : List Char), st.rem = '\n' :: rest →
        nextTokenCore st =
          some (⟨"NEWLINE", .vstr "\\n", st.line, st.col⟩, ⟨rest, st.line + 1, 0⟩)) ∧
    tokenize "\n" = some [⟨"NEWLINE", .vstr "\\n", 1, 0⟩, ⟨"EOF", .vnone, 2, 0⟩] ∧
    ("\\n" : String).data = ['\\', 'n'] := by
  refine ⟨fun s ts h => tokenizeAux_newline_value _ _ ts h, ?_, rfl, rfl⟩
  rintro ⟨rem, line, col⟩ rest hrem
  subst hrem
  rw [nextTokenCore_cons, if_pos rfl]
  rfl

/-- Witness for c10_newline_token_value on the one-newline input. -/
theorem c10_witness :
    (Token.mk "NEWLINE" (TokValue.vstr "\\n") 1 0).value = .vstr "\\n" ∧
    nextTokenCore ⟨['\n'], 1, 0⟩ =
      some (⟨"NEWLINE", .vstr "\\n", 1, 0⟩, ⟨[], 2, 0⟩) :=
  ⟨c10_newline_token_value.1 "\n" [⟨"NEWLINE", .vstr "\\n", 1, 0⟩, ⟨"EOF", .vnone, 2, 0⟩]
     rfl (Token.mk "NEWLINE" (TokValue.vstr "\\n") 1 0) (by simp) rfl,
   c10_newline_token_value.2.1 ⟨['\n'], 1, 0⟩ [] rfl⟩

/-- When the remaining characters contain neither a backslash nor the
quote, the string loop consumes the whole input verbatim and stops at end
of input. -/
theorem readStrAux_unterminated (q : Char) : ∀ (cs : List Char) (l c : Nat) (buf : List Char),
    '\\' ∉ cs → q ∉ cs →
    readStrAux q cs l c buf = (buf.reverse ++ cs, [], l + cs.count '\n', colAfter cs c) := by
  intro cs
  induction cs with
  | nil => intro l c buf _ _; simp [readStrAux, colAfter]
  | cons ch rest ih =>
    intro l c buf hb hq
    rw [List.mem_cons, not_or] at hb hq
    obtain ⟨hb1, hb2⟩ := hb
    obtain ⟨hq1, hq2⟩ := hq
    rw [readStrAux_cons, if_neg (fun h => hb1 h.symm), if_neg (fun h => hq1 h.symm)]
    by_cases hch : ch = '\n'
    · subst hch
      rw [ih _ _ _ hb2 hq2]
      simp [stepLC, colAfter, List.count_cons]
      omega
    · rw [ih _ _ _ hb2 hq2]
      simp [stepLC, colAfter, List.count_cons, hch]

/-- One unfolding step of closesAt on a non-empty remainder. -/
theorem closesAt_cons (q ch : Char) (rest : List Char) :
    closesAt q (ch :: rest) =
      (if ch = '\\' then
        match rest with
        | [] => false
        | _ :: rest2 => closesAt q rest2
      else if ch = q then true
      else closesAt q rest) := by
  rw [closesAt.eq_def]

/-- One unfolding step of strContent on a non-empty remainder. -/
theorem strContent_cons (q ch : Char) (rest : List Char) :
    strContent q (ch :: rest) =
      (if ch = '\\' then
        match rest with
        | [] => []
        | nxt :: rest2 => escMap nxt :: strContent q rest2
      else if ch = q then []
      else ch :: strContent q rest) := by
  rw [strContent.eq_def]

/-- The string scan on any remainder in which the quote never closes:
everything is consumed, the accumulated content is strContent, and the
counters advance over every character (bounded form for induction). -/
theorem readStrAux_unterminated_all_aux (q : Char) (n : Nat) : ∀ cs : List Char,
    cs.length ≤ n → ∀ (l c : Nat) (buf : List Char), closesAt q cs = false →
    readStrAux q cs l c buf =
      (buf.reverse ++ strContent q cs, [], l + cs.count '\n', colAfter cs c) := by
  induction n with
  | zero =>
    intro cs hcs l c buf hclose
    have : cs = [] := List.length_eq_zero.mp (Nat.le_zero.mp hcs)
    subst this
    simp [readStrAux, strContent, colAfter]
  | succ n ih =>
    intro cs hcs l c buf hclose
    match cs with
    | [] => simp [readStrAux, strContent, colAfter]
    | ch :: rest =>
      by_cases hb : ch = '\\'
      · subst hb
        match rest with
        | [] =>
          rw [show readStrAux q ['\\'] l c buf =
                (buf.reverse, [], (stepLC '\\' l c).1, (stepLC '\\' l c).2) from rfl,
              show strContent q ['\\'] = [] from rfl]
          simp [stepLC, colAfter, List.count_cons]
        | nxt :: rest2 =>
          have hclose2 : closesAt q rest2 = false := hclose
          have h2 : rest2.length ≤ n := by simp at hcs; omega
          rw [show readStrAux q ('\\' :: nxt :: rest2) l c buf =
                readStrAux q rest2 (stepLC nxt (stepLC '\\' l c).1 (stepLC '\\' l c).2).1
                  (stepLC nxt (stepLC '\\' l c).1 (stepLC '\\' l c).2).2
                  (escMap nxt :: buf) from rfl]
          rw [ih rest2 h2 _ _ (escMap nxt :: buf) hclose2]
          rw [show strContent q ('\\' :: nxt :: rest2) = escMap nxt :: strContent q rest2
                from rfl]
          by_cases hnl : nxt = '\n'
          · subst hnl
            simp [stepLC, colAfter, List.count_cons]
            omega
          · simp [stepLC, colAfter, List.count_cons, hnl]
      · by_cases hq : ch = q
        · exfalso
          rw [closesAt_cons, if_neg hb, if_pos hq] at hclose
          simp at hclose
        · rw [readStrAux_cons, if_neg hb, if_neg hq,
              strContent_cons, if_neg hb, if_neg hq]
          rw [closesAt_cons, if_neg hb, if_neg hq] at hclose
          have h2 : rest.length ≤ n := by simp at hcs; omega
          rw [ih rest h2 _ _ (ch :: buf) hclose]
          by_cases hnl : ch = '\n'
          · subst hnl
            simp [stepLC, colAfter, List.count_cons]
            omega
          · simp [stepLC, colAfter, List.count_cons, hnl]

/-- The string scan on any remainder in which the quote never closes. -/
theorem readStrAux_unterminated_all (q : Char) (cs : List Char) (l c : Nat)
    (buf : List Char) (h : closesAt q cs = false) :
    readStrAux q cs l c buf =
      (buf.reverse ++ strContent q cs, [], l + cs.count '\n', colAfter cs c) :=
  readStrAux_unterminated_all_aux q cs.length cs le_rfl l c buf h

/-- C7: for every input in which the opening quote of a string literal is
never matched before end of input (closesAt false, the matching discipline
of the scan itself, covering trailing backslashes and escaped quotes), the
scan consumes the whole remaining input and produces a STRING token whose
value is the partial content read so far (strContent), with no failure;
the no-escape case is also stated directly; inside a string literal a
backslash consumes the following character through the escape map, which
sends n, t, r, either quote and backslash to the corresponding escape
character and any other character to itself.  The four concrete runs show
a plain unterminated literal, the two-character sequence backslash-n
becoming one literal newline character, an unterminated literal ending in
a backslash, and a literal left unterminated by an escaped quote. -/
theorem c7_string_scan :
    (∀ (st : LexState) (q : Char) (rest : List Char),
        st.rem = q :: rest → (q = '\'' ∨ q = '"') → closesAt q rest = false →
        readString st =
          (⟨"STRING", .vstr (strContent q rest).asString, st.line + rest.count '\n', st.col⟩,
           ⟨[], st.line + rest.count '\n', colAfter rest (st.col + 1)⟩)) ∧
    (∀ (st : LexState) (q : Char) (rest : List Char),
        st.rem = q :: rest → (q = '\'' ∨ q = '"') → '\\' ∉ rest → q ∉ rest →
        readString st =
          (⟨"STRING", .vstr rest.asString, st.line + rest.count '\n', st.col⟩,
           ⟨[], st.line + rest.count '\n', colAfter rest (st.col + 1)⟩)) ∧
    (∀ (q nxt : Char) (rest : List Char) (l c : Nat) (buf : List Char),
        readStrAux q ('\\' :: nxt :: rest) l c buf =
          readStrAux q rest (stepLC nxt l (c + 1)).1 (stepLC nxt l (c + 1)).2
            (escMap nxt :: buf)) ∧
    escMap 'n' = '\n' ∧ escMap 't' = '\t' ∧ escMap 'r' = '\r' ∧
    escMap '\'' = '\'' ∧ escMap '"' = '"' ∧ escMap '\\' = '\\' ∧
    (∀ ch : Char, ch ∉ ['n', 't', 'r', '\'', '"', '\\'] → escMap ch = ch) ∧
    tokenize "\"abc" = some [⟨"STRING", .vstr "abc", 1, 0⟩, ⟨"EOF", .vnone, 1, 4⟩] ∧
    tokenize "\"a\\nb\"" = some [⟨"STRING", .vstr "a\nb", 1, 0⟩, ⟨"EOF", .vnone, 1, 6⟩] ∧
    tokenize "\"ab\\" = some [⟨"STRING", .vstr "ab", 1, 0⟩, ⟨"EOF", .vnone, 1, 4⟩] ∧
    tokenize "\"a\\\"b" =
      some [⟨"STRING", .vstr "a\"b", 1, 0⟩, ⟨"EOF", .vnone, 1, 5⟩] := by
  refine ⟨?_, ?_, ?_, rfl, rfl, rfl, rfl, rfl, rfl, ?_, rfl, rfl, rfl, rfl⟩
  · rintro ⟨rem, line, col⟩ q rest hrem hquote hclose
    subst hrem
    have hqn : ¬(q = '\n') := by rcases hquote with h | h <;> subst h <;> decide
    simp only [readString]
    rw [readStrAux_unterminated_all q rest _ _ [] hclose]
    simp [stepLC, hqn]
  · rintro ⟨rem, line, col⟩ q rest hrem hquote hb hq
    subst hrem
    have hqn : ¬(q = '\n') := by rcases hquote with h | h <;> subst h <;> decide
    simp only [readString]
    rw [readStrAux_unterminated q rest _ _ [] hb hq]
    simp [stepLC, hqn]
  · intro q nxt rest l c buf
    rw [readStrAux_cons, if_pos rfl]
    simp [stepLC]
  · intro ch h
    simp only [List.mem_cons, not_or] at h
    obtain ⟨h1, h2, h3, h4, h5, h6, -⟩ := h
    simp [escMap, h1, h2, h3, h4, h5, h6]

/-- Witness for c7_string_scan: an unterminated double-quoted literal
ending in a backslash (the general unterminated case), one escape step,
and the pass-through escape at letter z. -/
theorem c7_witness :
    readString ⟨['"', 'a', '\\'], 1, 0⟩ =
      (⟨"STRING", .vstr (strContent '"' ['a', '\\']).asString,
        1 + ['a', '\\'].count '\n', 0⟩,
       ⟨[], 1 + ['a', '\\'].count '\n', colAfter ['a', '\\'] 1⟩) ∧
    readStrAux '"' ['\\', 'n', 'x'] 1 1 [] =
      readStrAux '"' ['x'] (stepLC 'n' 1 2).1 (stepLC 'n' 1 2).2 (escMap 'n' :: []) ∧
    escMap 'z' = 'z' :=
  ⟨c7_string_scan.1 ⟨['"', 'a', '\\'], 1, 0⟩ '"' ['a', '\\'] rfl (Or.inr rfl)
     (by decide),
   c7_string_scan.2.2.1 '"' 'n' ['x'] 1 1 [],
   c7_string_scan.2.2.2.2.2.2.2.2.2.1 'z' (by decide)⟩

/-- One unfolding step of Parser.parse_block. -/
theorem parseBlock_succ (n : Nat) (tokens : List Token) (pos : Nat) :
    parseBlock (n + 1) tokens pos =
      match tokens[pos]? with
      | none => .ok ([], pos)
      | some tok =>
        if tok.type = "EOF" then .ok ([], pos)
        else if tok.type = "NEWLINE" then parseBlock n tokens (pos + 1)
        else if tok.type = "KEYWORD" ∧ (tok.value = .vstr "def" ∨ tok.value = .vstr "if" ∨
                  tok.value = .vstr "for" ∨ tok.value = .vstr "while") then .ok ([], pos)
        else
          match parseStatement n tokens pos with
          | .error e => .error e
          | .ok (stmt, p1) =>
            match parseBlock n tokens p1 with
            | .error e => .error e
            | .ok (rest, p2) => .ok (stmt :: rest, p2) := rfl

/-- Parser.parse_block can only return at a stop position: end of stream,
EOF, or one of the four block-opening keywords, which is left unconsumed. -/
theorem parseBlock_stops : ∀ (fuel : Nat) (tokens : List Token) (pos : Nat)
    (body : List Stmt) (p' : Nat),
    parseBlock fuel tokens pos = .ok (body, p') → blockStopCond tokens p' := by
  intro fuel
  induction fuel with
  | zero =>
    intro tokens pos body p' h
    exact absurd h (by simp [parseBlock])
  | succ n ih =>
    intro tokens pos body p' h
    unfold blockStopCond
    rw [parseBlock_succ] at h
    cases htok : tokens[pos]? with
    | none =>
      rw [htok] at h
      simp only [Except.ok.injEq, Prod.mk.injEq] at h
      obtain ⟨-, rfl⟩ := h
      exact Or.inl htok
    | some tok =>
      rw [htok] at h
      simp only [] at h
      split at h
      · rename_i hEOF
        simp only [Except.ok.injEq, Prod.mk.injEq] at h
        obtain ⟨-, rfl⟩ := h
        exact Or.inr ⟨tok, htok, Or.inl hEOF⟩
      · split at h
        · exact ih tokens (pos + 1) body p' h
        · split at h
          · rename_i hkw
            simp only [Except.ok.injEq, Prod.mk.injEq] at h
            obtain ⟨-, rfl⟩ := h
            exact Or.inr ⟨tok, htok, Or.inr hkw⟩
          · cases hstmt : parseStatement n tokens pos with
            | error e => rw [hstmt] at h; simp at h
            | ok r =>
              obtain ⟨stmt, p1⟩ := r
              rw [hstmt] at h
              replace h : (match parseBlock n tokens p1 with
                | .error e => (Except.error e : Except PErr (List Stmt × Nat))
                | .ok (rest, p2) => Except.ok (stmt :: rest, p2)) = Except.ok (body, p') := h
              cases hblk : parseBlock n tokens p1 with
              | error e => rw [hblk] at h; simp at h
              | ok r2 =>
                obtain ⟨rest, p2⟩ := r2
                rw [hblk] at h
                simp only [Except.ok.injEq, Prod.mk.injEq] at h
                obtain ⟨-, rfl⟩ := h
                exact ih tokens p1 rest p2 hblk

/-- One unfolding step of Parser.parse_if. -/
theorem parseIf_succ (n : Nat) (tokens : List Token) (pos : Nat) :
    parseIf (n + 1) tokens pos =
      match expectT "KEYWORD" tokens pos with
      | .error e => .error e
      | .ok (_, p1) =>
        match parseExpression n tokens p1 with
        | .error e => .error e
        | .ok (cond, p2) =>
          match expectT "DELIM" tokens p2 with
          | .error e => .error e
          | .ok (_, p3) =>
            match parseBlock n tokens (skipNewlines tokens p3) with
            | .error e => .error e
            | .ok (body, p5) =>
              match tokens[p5]? with
              | some t =>
                if t.type = "KEYWORD" ∧ t.value = .vstr "else" then
                  match expectT "DELIM" tokens (p5 + 1) with
                  | .error e => .error e
                  | .ok (_, p7) =>
                    match parseBlock n tokens (skipNewlines tokens p7) with
                    | .error e => .error e
                    | .ok (orelse, p9) => .ok (.ifStmt cond body orelse, p9)
                else .ok (.ifStmt cond body [], p5)
              | none => .ok (.ifStmt cond body [], p5) := rfl

/-- C2 as amended: whenever Parser.parse_if succeeds, the orelse field of
the returned If node is the empty list.  The block that parses the true
branch can only stop at end of stream, EOF, or one of the keywords def,
if, for, while — never at the else keyword — so the else branch of the
source is dead code: the alternative branch of a conditional is swallowed
into the true-branch body (its keyword and colon become bare Expression
statements) and orelse is always empty. -/
theorem c2_orelse_always_empty : ∀ (fuel : Nat) (tokens : List Token) (pos : Nat)
    (c : PExpr) (b o : List Stmt) (p' : Nat),
    parseIf fuel tokens pos = .ok (.ifStmt c b o, p') → o = [] := by
  intro fuel tokens pos c b o p' h
  match fuel with
  | 0 => exact absurd h (by simp [parseIf])
  | n + 1 =>
    rw [parseIf_succ] at h
    cases h1 : expectT "KEYWORD" tokens pos with
    | error e => rw [h1] at h; simp at h
    | ok r1 =>
      obtain ⟨u1, p1⟩ := r1
      rw [h1] at h
      replace h : (match parseExpression n tokens p1 with
        | .error e => (Except.error e : Except PErr (Stmt × Nat))
        | .ok (cond, p2) =>
          match expectT "DELIM" tokens p2 with
          | .error e => .error e
          | .ok (_, p3) =>
            match parseBlock n tokens (skipNewlines tokens p3) with
            | .error e => .error e
            | .ok (body, p5) =>
              match tokens[p5]? with
              | some t =>
                if t.type = "KEYWORD" ∧ t.value = TokValue.vstr "else" then
                  match expectT "DELIM" tokens (p5 + 1) with
                  | .error e => .error e
                  | .ok (_, p7) =>
                    match parseBlock n tokens (skipNewlines tokens p7) with
                    | .error e => .error e
                    | .ok (orelse, p9) => .ok (.ifStmt cond body orelse, p9)
                else .ok (.ifStmt cond body [], p5)
              | none => .ok (.ifStmt cond body [], p5)) = .ok (.ifStmt c b o, p') := h
      cases h2 : parseExpression n tokens p1 with
      | error e => rw [h2] at h; simp at h
      | ok r2 =>
        obtain ⟨cond, p2⟩ := r2
        rw [h2] at h
        replace h : (match expectT "DELIM" tokens p2 with
          | .error e => (Except.error e : Except PErr (Stmt × Nat))
          | .ok (_, p3) =>
            match parseBlock n tokens (skipNewlines tokens p3) with
            | .error e => .error e
            | .ok (body, p5) =>
              match tokens[p5]? with
              | some t =>
                if t.type = "KEYWORD" ∧ t.value = TokValue.vstr "else" then
                  match expectT "DELIM" tokens (p5 + 1) with
                  | .error e => .error e
                  | .ok (_, p7) =>
                    match parseBlock n tokens (skipNewlines tokens p7) with
                    | .error e => .error e
                    | .ok (orelse, p9) => .ok (.ifStmt cond body orelse, p9)
                else .ok (.ifStmt cond body [], p5)
              | none => .ok (.ifStmt cond body [], p5)) = .ok (.ifStmt c b o, p') := h
        cases h3 : expectT "DELIM" tokens p2 with
        | error e => rw [h3] at h; simp at h
        | ok r3 =>
          obtain ⟨u3, p3⟩ := r3
          rw [h3] at h
          replace h : (match parseBlock n tokens (skipNewlines tokens p3) with
            | .error e => (Except.error e : Except PErr (Stmt × Nat))
            | .ok (body, p5) =>
              match tokens[p5]? with
              | some t =>
                if t.type = "KEYWORD" ∧ t.value = TokValue.vstr "else" then
                  match expectT "DELIM" tokens (p5 + 1) with
                  | .error e => .error e
                  | .ok (_, p7) =>
                    match parseBlock n tokens (skipNewlines tokens p7) with
                    | .error e => .error e
                    | .ok (orelse, p9) => .ok (.ifStmt cond body orelse, p9)
                else .ok (.ifStmt cond body [], p5)
              | none => .ok (.ifStmt cond body [], p5)) = .ok (.ifStmt c b o, p') := h
          cases h4 : parseBlock n tokens (skipNewlines tokens p3) with
          | error e => rw [h4] at h; simp at h
          | ok r4 =>
            obtain ⟨body, p5⟩ := r4
            rw [h4] at h
            have hstop := parseBlock_stops n tokens (skipNewlines tokens p3) body p5 h4
            replace h : (match tokens[p5]? with
              | some t =>
                if t.type = "KEYWORD" ∧ t.value = TokValue.vstr "else" then
                  match expectT "DELIM" tokens (p5 + 1) with
                  | .error e => (Except.error e : Except PErr (Stmt × Nat))
                  | .ok (_, p7) =>
                    match parseBlock n tokens (skipNewlines tokens p7) with
                    | .error e => .error e
                    | .ok (orelse, p9) => .ok (.ifStmt cond body orelse, p9)
                else .ok (.ifStmt cond body [], p5)
              | none => .ok (.ifStmt cond body [], p5)) = .ok (.ifStmt c b o, p') := h
            cases htok : tokens[p5]? with
            | none =>
              rw [htok] at h
              simp only [Except.ok.injEq, Prod.mk.injEq, Stmt.ifStmt.injEq] at h
              exact h.1.2.2.symm
            | some t =>
              rw [htok] at h
              replace h : (if t.type = "KEYWORD" ∧ t.value = TokValue.vstr "else" then
                  match expectT "DELIM" tokens (p5 + 1) with
                  | .error e => (Except.error e : Except PErr (Stmt × Nat))
                  | .ok (u7, p7) =>
                    match parseBlock n tokens (skipNewlines tokens p7) with
                    | .error e => .error e
                    | .ok (orelse, p9) => Except.ok (Stmt.ifStmt cond body orelse, p9)
                else Except.ok (Stmt.ifStmt cond body [], p5)) =
                  Except.ok (Stmt.ifStmt c b o, p') := h
              have hnotelse : ¬(t.type = "KEYWORD" ∧ t.value = TokValue.vstr "else") := by
                rcases hstop with hnone | ⟨t0, ht0, hspec⟩
                · rw [htok] at hnone; exact absurd hnone (by simp)
                · rw [htok] at ht0
                  injection ht0 with ht0
                  subst ht0
                  rcases hspec with hEOF | ⟨hkw, hval⟩
                  · rintro ⟨hk, -⟩
                    rw [hEOF] at hk
                    simp at hk
                  · rintro ⟨-, hv⟩
                    rcases hval with hd | hd | hd | hd <;> rw [hd] at hv <;> simp at hv
              rw [if_neg hnotelse] at h
              simp only [Except.ok.injEq, Prod.mk.injEq, Stmt.ifStmt.injEq] at h
              exact h.1.2.2.symm

/-- C2 counterexample: on the token stream of a conditional with an
alternative branch, parse succeeds but the If node has an empty orelse and
the whole else branch (keyword, colon and statement) has been parsed as
junk Expression statements inside the true-branch body — not as the
claimed parsed false-branch statement list [Expression "z"]. -/
theorem c2_counterexample :
    lexParse "if x:\n    y\nelse:\n    z\n" =
      some (.ok ⟨[.ifStmt (.val (.vstr "x"))
        [.expression (.val (.vstr "y")), .expression (.val (.vstr "else")),
         .expression (.val (.vstr ":")), .expression (.val (.vstr "z"))] []]⟩) ∧
    ([] : List Stmt).length = 0 ∧
    ([Stmt.expression (.val (.vstr "z"))] : List Stmt).length = 1 := ⟨rfl, rfl, rfl⟩

/-- Witness for c2_orelse_always_empty on a concrete conditional without
an alternative branch. -/
theorem c2_witness : ([] : List Stmt) = [] :=
  c2_orelse_always_empty 5
    [⟨"KEYWORD", .vstr "if", 1, 0⟩, ⟨"IDENT", .vstr "x", 1, 3⟩,
     ⟨"DELIM", .vstr ":", 1, 4⟩, ⟨"EOF", .vnone, 1, 5⟩] 0
    (.val (.vstr "x")) [] [] 3 rfl

/-- C5: Parser.parse_block stops exactly at the stop condition — on
success the final position holds end-of-stream, EOF, or one of the four
keywords def, if, for, while; a current token satisfying the keyword stop
condition ends the block immediately with that token unconsumed; and on
the concrete program a while-loop following a conditional body at the same
level becomes a sibling statement of the conditional, not its child. -/
theorem c5_block_policy :
    (∀ (fuel : Nat) (tokens : List Token) (pos : Nat) (body : List Stmt) (p' : Nat),
        parseBlock fuel tokens pos = .ok (body, p') → blockStopCond tokens p') ∧
    (∀ (fuel : Nat) (tokens : List Token) (pos : Nat) (t : Token),
        tokens[pos]? = some t → t.type = "KEYWORD" →
        (t.value = .vstr "def" ∨ t.value = .vstr "if" ∨ t.value = .vstr "for" ∨
          t.value = .vstr "while") →
        parseBlock (fuel + 1) tokens pos = .ok ([], pos)) ∧
    lexParse "if x:\n    y\nwhile z:\n    w\n" =
      some (.ok ⟨[.ifStmt (.val (.vstr "x")) [.expression (.val (.vstr "y"))] [],
                  .whileStmt (.val (.vstr "z")) [.expression (.val (.vstr "w"))]]⟩) := by
  refine ⟨parseBlock_stops, ?_, rfl⟩
  intro fuel tokens pos t htok htype hval
  rw [parseBlock_succ, htok]
  show (if t.type = "EOF" then (Except.ok ([], pos) : Except PErr (List Stmt × Nat))
        else if t.type = "NEWLINE" then parseBlock fuel tokens (pos + 1)
        else if t.type = "KEYWORD" ∧ (t.value = .vstr "def" ∨ t.value = .vstr "if" ∨
                  t.value = .vstr "for" ∨ t.value = .vstr "while") then .ok ([], pos)
        else
          match parseStatement fuel tokens pos with
          | .error e => .error e
          | .ok (stmt, p1) =>
            match parseBlock fuel tokens p1 with
            | .error e => .error e
            | .ok (rest, p2) => .ok (stmt :: rest, p2)) = Except.ok ([], pos)
  have h1 : ¬(t.type = "EOF") := by rw [htype]; simp
  have h2 : ¬(t.type = "NEWLINE") := by rw [htype]; simp
  rw [if_neg h1, if_neg h2, if_pos ⟨htype, hval⟩]

/-- Witness for c5_block_policy: a block run stopping at EOF satisfies the
stop condition, and a block whose current token is the def keyword returns
immediately with the keyword unconsumed. -/
theorem c5_witness :
    blockStopCond [⟨"EOF", .vnone, 1, 0⟩] 0 ∧
    parseBlock 1 [⟨"KEYWORD", .vstr "def", 1, 0⟩] 0 = .ok ([], 0) :=
  ⟨c5_block_policy.1 1 [⟨"EOF", .vnone, 1, 0⟩] 0 [] 0 rfl,
   c5_block_policy.2.1 0 [⟨"KEYWORD", .vstr "def", 1, 0⟩] 0 ⟨"KEYWORD", .vstr "def", 1, 0⟩
     rfl rfl (Or.inl rfl)⟩

/-- C1 (code bug): the documented scenario input with two parameters.  The
parameter loop of Parser.parse_function tests the stale identifier token
for the comma, so it exits after the first parameter; the following two
DELIM expectations then consume the comma and hit the second parameter
IDENT b at line 1 column 11, raising the structural error instead of
returning FunctionDef("add", ["a", "b"], [Return "a"]).  A one-parameter
definition parses fine, isolating the slip to the comma check. -/
theorem c1_two_param_def_fails :
    lexParse "def add(a, b):\n    return a\n" =
      some (.error (.expected "DELIM" (some ⟨"IDENT", .vstr "b", 1, 11⟩))) ∧
    (PErr.expected "DELIM" (some ⟨"IDENT", .vstr "b", 1, 11⟩)).isExpectedErr = true ∧
    lexParse "def f(a):\n    return a\n" =
      some (.ok ⟨[.functionDef (.vstr "f") [.vstr "a"] [.ret (.val (.vstr "a"))]]⟩) :=
  ⟨rfl, rfl, rfl⟩

/-- C3 (code bug): the lexer-produced token stream of the truncated input
"foo(" makes parse fail with the None-dereference (AttributeError) inside
the call-argument loop, a failure that is not the structural error raised
by Parser.expect. -/
theorem c3_nonexpect_failure :
    lexParse "foo(" = some (.error .attrNone) ∧
    PErr.attrNone.isExpectedErr = false := ⟨rfl, rfl⟩

/-- One unfolding step of Parser.parse_assignment_or_expr. -/
theorem parseAssignOrExpr_succ (n : Nat) (tokens : List Token) (pos : Nat) :
    parseAssignOrExpr (n + 1) tokens pos =
      match tokens[pos]? with
      | none => .error .attrNone
      | some tok =>
        if tok.type = "IDENT" then
          match tokens[pos + 1]? with
          | some t1 =>
            if t1.value = .vstr "=" then
              match parseExpression n tokens (pos + 2) with
              | .error e => .error e
              | .ok (e, p2) => .ok (.assign tok.value e, p2)
            else
              match parseExpression n tokens pos with
              | .error e => .error e
              | .ok (e, p) => .ok (.expression e, p)
          | none =>
            match parseExpression n tokens pos with
            | .error e => .error e
            | .ok (e, p) => .ok (.expression e, p)
        else
          match parseExpression n tokens pos with
          | .error e => .error e
          | .ok (e, p) => .ok (.expression e, p) := rfl

/-- A result built by wrapping a parsed expression is a bare Expression
statement. -/
theorem exprResult_isExpr (fuel : Nat) (tokens : List Token) (pos : Nat)
    (s : Stmt) (p' : Nat)
    (h : (match parseExpression fuel tokens pos with
          | .error e => (Except.error e : Except PErr (Stmt × Nat))
          | .ok (e, p) => Except.ok (Stmt.expression e, p)) = Except.ok (s, p')) :
    s.isExprStmt = true := by
  cases he : parseExpression fuel tokens pos with
  | error e => rw [he] at h; simp at h
  | ok r =>
    obtain ⟨e1, p⟩ := r
    rw [he] at h
    simp only [Except.ok.injEq, Prod.mk.injEq] at h
    rw [← h.1]
    rfl

/-- C8: in statement position an identifier followed by a token of literal
value "=" yields an Assign node built from the identifier and the parsed
right-hand expression; in every other case the statement is a bare
Expression wrapping a parsed expression.  The two concrete runs are the
documented scenarios. -/
theorem c8_assignment_dispatch :
    (∀ (fuel : Nat) (tokens : List Token) (pos : Nat) (tok t1 : Token),
        tokens[pos]? = some tok → tok.type = "IDENT" →
        tokens[pos + 1]? = some t1 → t1.value = .vstr "=" →
        parseAssignOrExpr (fuel + 1) tokens pos =
          (match parseExpression fuel tokens (pos + 2) with
           | .error e => .error e
           | .ok (e, p2) => .ok (.assign tok.value e, p2))) ∧
    (∀ (fuel : Nat) (tokens : List Token) (pos : Nat) (tok : Token),
        tokens[pos]? = some tok →
        (tok.type = "IDENT" → ∀ t1, tokens[pos + 1]? = some t1 →
          ¬t1.value = TokValue.vstr "=") →
        ∀ (s : Stmt) (p' : Nat), parseAssignOrExpr (fuel + 1) tokens pos = .ok (s, p') →
          s.isExprStmt = true) ∧
    lexParse "x = 5" = some (.ok ⟨[.assign (.vstr "x") (.val (.vint 5))]⟩) ∧
    lexParse "foo(5)" =
      some (.ok ⟨[.expression (.call (.vstr "foo") [.val (.vint 5)])]⟩) := by
  refine ⟨?_, ?_, rfl, rfl⟩
  · intro fuel tokens pos tok t1 htok htype ht1 hval
    rw [parseAssignOrExpr_succ, htok]
    show (if tok.type = "IDENT" then
           match tokens[pos + 1]? with
           | some t1 =>
             if t1.value = TokValue.vstr "=" then
               match parseExpression fuel tokens (pos + 2) with
               | .error e => (Except.error e : Except PErr (Stmt × Nat))
               | .ok (e, p2) => .ok (.assign tok.value e, p2)
             else
               match parseExpression fuel tokens pos with
               | .error e => .error e
               | .ok (e, p) => .ok (.expression e, p)
           | none =>
             match parseExpression fuel tokens pos with
             | .error e => .error e
             | .ok (e, p) => .ok (.expression e, p)
         else
           match parseExpression fuel tokens pos with
           | .error e => .error e
           | .ok (e, p) => .ok (.expression e, p)) = _
    rw [if_pos htype, ht1]
    show (if t1.value = TokValue.vstr "=" then
           match parseExpression fuel tokens (pos + 2) with
           | .error e => (Except.error e : Except PErr (Stmt × Nat))
           | .ok (e, p2) => .ok (.assign tok.value e, p2)
         else
           match parseExpression fuel tokens pos with
           | .error e => .error e
           | .ok (e, p) => .ok (.expression e, p)) = _
    rw [if_pos hval]
  · intro fuel tokens pos tok htok hcond s p' h
    rw [parseAssignOrExpr_succ, htok] at h
    replace h : (if tok.type = "IDENT" then
        match tokens[pos + 1]? with
        | some t1 =>
          if t1.value = TokValue.vstr "=" then
            match parseExpression fuel tokens (pos + 2) with
            | .error e => (Except.error e : Except PErr (Stmt × Nat))
            | .ok (e, p2) => .ok (.assign tok.value e, p2)
          else
            match parseExpression fuel tokens pos with
            | .error e => .error e
            | .ok (e, p) => .ok (.expression e, p)
        | none =>
          match parseExpression fuel tokens pos with
          | .error e => .error e
          | .ok (e, p) => .ok (.expression e, p)
      else
        match parseExpression fuel tokens pos with
        | .error e => .error e
        | .ok (e, p) => .ok (.expression e, p)) = Except.ok (s, p') := h
    by_cases hid : tok.type = "IDENT"
    · rw [if_pos hid] at h
      cases ht1 : tokens[pos + 1]? with
      | none =>
        rw [ht1] at h
        exact exprResult_isExpr fuel tokens pos s p' h
      | some t1 =>
        rw [ht1] at h
        replace h : (if t1.value = TokValue.vstr "=" then
            match parseExpression fuel tokens (pos + 2) with
            | .error e => (Except.error e : Except PErr (Stmt × Nat))
            | .ok (e, p2) => .ok (.assign tok.value e, p2)
          else
            match parseExpression fuel tokens pos with
            | .error e => .error e
            | .ok (e, p) => .ok (.expression e, p)) = Except.ok (s, p') := h
        rw [if_neg (hcond hid t1 ht1)] at h
        exact exprResult_isExpr fuel tokens pos s p' h
    · rw [if_neg hid] at h
      exact exprResult_isExpr fuel tokens pos s p' h

/-- Witness for c8_assignment_dispatch: the dispatch equations applied to
the token streams of the two scenarios. -/
theorem c8_witness :
    parseAssignOrExpr 3
      [⟨"IDENT", .vstr "x", 1, 0⟩, ⟨"OP", .vstr "=", 1, 2⟩,
       ⟨"NUMBER", .vint 5, 1, 4⟩, ⟨"EOF", .vnone, 1, 5⟩] 0 =
      (match parseExpression 2
          [⟨"IDENT", .vstr "x", 1, 0⟩, ⟨"OP", .vstr "=", 1, 2⟩,
           ⟨"NUMBER", .vint 5, 1, 4⟩, ⟨"EOF", .vnone, 1, 5⟩] 2 with
       | .error e => .error e
       | .ok (e, p2) => .ok (.assign (TokValue.vstr "x") e, p2)) ∧
    (Stmt.expression (.val (.vint 5))).isExprStmt = true :=
  ⟨c8_assignment_dispatch.1 2
     [⟨"IDENT", .vstr "x", 1, 0⟩, ⟨"OP", .vstr "=", 1, 2⟩,
      ⟨"NUMBER", .vint 5, 1, 4⟩, ⟨"EOF", .vnone, 1, 5⟩] 0
     ⟨"IDENT", .vstr "x", 1, 0⟩ ⟨"OP", .vstr "=", 1, 2⟩ rfl rfl rfl rfl,
   c8_assignment_dispatch.2.1 1 [⟨"NUMBER", .vint 5, 1, 0⟩, ⟨"EOF", .vnone, 1, 1⟩] 0
     ⟨"NUMBER", .vint 5, 1, 0⟩ rfl (fun hid => by simp at hid)
     (Stmt.expression (.val (.vint 5))) 1 rfl⟩

/-- C9: Parser.expect validates only the token type — any token of type
DELIM satisfies an expect("DELIM") call site whatever delimiter character
it holds.  Concretely, a closing square bracket is accepted where the
closing parenthesis of a call is required, and a semicolon is accepted
where the colon of a conditional is required, with no failure. -/
theorem c9_expect_type_only :
    (∀ (tokens : List Token) (pos : Nat) (t : Token),
        tokens[pos]? = some t → t.type = "DELIM" →
        expectT "DELIM" tokens pos = .ok (t, pos + 1)) ∧
    lexParse "foo(5]" =
      some (.ok ⟨[.expression (.call (.vstr "foo") [.val (.vint 5)])]⟩) ∧
    lexParse "if x;\n    y\n" =
      some (.ok ⟨[.ifStmt (.val (.vstr "x")) [.expression (.val (.vstr "y"))] []]⟩) := by
  refine ⟨?_, rfl, rfl⟩
  intro tokens pos t htok htype
  rw [expectT, htok]
  show (if t.type = "DELIM" then (Except.ok (t, pos + 1) : Except PErr (Token × Nat))
        else .error (.expected "DELIM" (some t))) = _
  rw [if_pos htype]

/-- Witness for c9_expect_type_only: a bracket-valued DELIM token passes
the DELIM expectation. -/
theorem c9_witness :
    expectT "DELIM" [⟨"DELIM", .vstr "]", 1, 0⟩] 0 =
      .ok (⟨"DELIM", .vstr "]", 1, 0⟩, 1) :=
  c9_expect_type_only.1 [⟨"DELIM", .vstr "]", 1, 0⟩] 0 ⟨"DELIM", .vstr "]", 1, 0⟩ rfl rfl
